import Mathlib

/-!
Shallow embedding of the zoho_LLM repository (natural_to_coql.py,
zoho_response_processor.py, zoho_coql_executor.py) and proofs about it.

Python strings are modelled as `List Char`; Python `str.split(sub)`,
`str.count(sub)`, `str.replace(sub, '')`, `str.strip()`, `str.split()`,
`str.startswith`, `in` (substring) and `int(...)` are re-implemented
faithfully below on that representation.
-/

set_option maxRecDepth 10000

namespace Zoho

abbrev PyStr := List Char

/-- ASCII lower-casing of one character, as `str.lower` acts on the ASCII
queries handled here. -/
def lowerChar (c : Char) : Char :=
  if 65 ≤ c.toNat ∧ c.toNat ≤ 90 then Char.ofNat (c.toNat + 32) else c

/-- Python `str.lower()`. -/
def lower (s : PyStr) : PyStr := s.map lowerChar

/-- Python whitespace characters recognised by `str.strip()` / `str.split()`. -/
def isSpaceChar (c : Char) : Bool :=
  c.toNat = 32 || c.toNat = 9 || c.toNat = 10 || c.toNat = 13 ||
  c.toNat = 11 || c.toNat = 12

/-- ASCII decimal digit test. -/
def isDigitC (c : Char) : Bool :=
  48 ≤ c.toNat && c.toNat ≤ 57

/-- Drop leading whitespace (Python `str.lstrip()`). -/
def stripL (s : PyStr) : PyStr := s.dropWhile (fun c => isSpaceChar c)

/-- Python `str.strip()`: drop leading and trailing whitespace. -/
def stripWS (s : PyStr) : PyStr := ((stripL ((stripL s).reverse)).reverse)

/-- Boolean test that `pat` sits at the front of `s` (Python `startswith`). -/
def leadsWith : PyStr → PyStr → Bool
  | [], _ => true
  | _ :: _, [] => false
  | p :: ps, c :: cs => (p == c) && leadsWith ps cs

/-- Python substring containment `pat in s`. -/
def containsSub (pat : PyStr) : PyStr → Bool
  | [] => pat.isEmpty
  | c :: cs => leadsWith pat (c :: cs) || containsSub pat cs

/-- Worker for `splitOnSub`; the fuel bounds the number of scanning steps. -/
def splitGo (sep : PyStr) : Nat → PyStr → PyStr → List PyStr
  | 0, s, cur => [cur.reverse ++ s]
  | fuel + 1, s, cur =>
    match s with
    | [] => [cur.reverse]
    | c :: cs =>
      if leadsWith sep (c :: cs) then
        cur.reverse :: splitGo sep fuel (List.drop sep.length (c :: cs)) []
      else
        splitGo sep fuel cs (c :: cur)

/-- Python `s.split(sep)` for a non-empty separator. -/
def splitOnSub (sep s : PyStr) : List PyStr := splitGo sep (s.length + 1) s []

/-- Python `s.count(sub)`: non-overlapping substring occurrences. -/
def countSub (pat s : PyStr) : Nat := (splitOnSub pat s).length - 1

/-- Python `s.replace(pat, rep)` (replace every occurrence). -/
def replaceSub (pat rep s : PyStr) : PyStr :=
  List.intercalate rep (splitOnSub pat s)

/-- Count occurrences of a single character. -/
def countC (c : Char) : PyStr → Nat
  | [] => 0
  | x :: xs => (if x = c then 1 else 0) + countC c xs

/-- Worker for Python `str.split()` with no argument: split on whitespace
runs, discarding empty pieces. -/
def splitWSGo : PyStr → PyStr → List PyStr
  | [], cur => if cur = [] then [] else [cur.reverse]
  | c :: cs, cur =>
    if isSpaceChar c then
      if cur = [] then splitWSGo cs [] else cur.reverse :: splitWSGo cs []
    else
      splitWSGo cs (c :: cur)

/-- Python `s.split()` with no argument. -/
def splitWS (s : PyStr) : List PyStr := splitWSGo s []

/-- Digit scanner for Python `int(...)`: digits with single underscores
allowed only between digits.  The flag records whether the previous
character was a digit (so a leading or doubled underscore is rejected). -/
def digitsGo : PyStr → Nat → Bool → Option Nat
  | [], acc, seen => if seen then some acc else none
  | c :: cs, acc, seen =>
    if isDigitC c then digitsGo cs (acc * 10 + (c.toNat - 48)) true
    else if c = '_' ∧ seen = true then digitsGo cs acc false
    else none

/-- Sign handling of Python `int(s)` after whitespace stripping. -/
def pyIntCore : PyStr → Option Int
  | [] => none
  | c :: rest =>
    if c = '+' then (digitsGo rest 0 false).map (fun n => (n : Int))
    else if c = '-' then (digitsGo rest 0 false).map (fun n => -(n : Int))
    else (digitsGo (c :: rest) 0 false).map (fun n => (n : Int))

/-- Python `int(s)` on a decimal string: optional surrounding whitespace,
optional sign, then digits (with Python's underscore rule). -/
def pyIntParse (s : PyStr) : Option Int :=
  pyIntCore (stripWS s)

/-- Numeric value of a digit string (most significant first). -/
def digitsVal (s : PyStr) : Nat :=
  s.foldl (fun a c => a * 10 + (c.toNat - 48)) 0

/-- Decimal digits of a natural number, most significant first. -/
def natToDigits : Nat → Nat → PyStr → PyStr
  | 0, _, acc => acc
  | fuel + 1, n, acc =>
    if n < 10 then Char.ofNat (48 + n) :: acc
    else natToDigits fuel (n / 10) (Char.ofNat (48 + n % 10) :: acc)

/-- Decimal representation of a natural number. -/
def digitsOf (n : Nat) : PyStr := natToDigits (n + 1) n []

/-- Insert a comma after every three characters of a reversed digit list. -/
def group3 : PyStr → PyStr
  | d1 :: d2 :: d3 :: d4 :: rest => d1 :: d2 :: d3 :: ',' :: group3 (d4 :: rest)
  | l => l

/-- Thousands-grouped decimal representation of a natural number. -/
def groupDigits (n : Nat) : PyStr := (group3 (digitsOf n).reverse).reverse

/-- Maximum of a list of naturals with default 0 (Python
`max(xs, default=0)`). -/
def maxD (l : List Nat) : Nat := l.foldr max 0

/-! ## The COQL validator (`NaturalToCoqlConverter.validate_coql_query`) -/

def kwSelect : PyStr := "select".data
def kwFrom : PyStr := "from".data
def kwWhere : PyStr := "where".data
def kwLimit : PyStr := "limit".data
def kwOrderBy : PyStr := "order by".data
def kwGroupBy : PyStr := "group by".data
def kwAnd : PyStr := "and".data
def kwOr : PyStr := "or".data

/-- Reasons the validator raises, one constructor per `raise` site of
`validate_coql_query` plus the two internal errors Python can raise there
(`IndexError` from `[...]` on an empty split, `ValueError` from `int(...)`). -/
inductive VErr
  | mustStartSelect
  | mustContainFrom
  | tooManyFields
  | tooManyCriteria
  | limitExceeded
  | intParseFailure (tok : PyStr)
  | indexErr
  | maxTwoJoins
deriving DecidableEq

/-- `select_part = query.lower().split('from')[0].replace('select', '').strip()`,
taking the already-lowered query. -/
def selectPartOf (lq : PyStr) : PyStr :=
  stripWS (replaceSub kwSelect [] ((splitOnSub kwFrom lq).headD []))

/-- `fields = [f.strip() for f in select_part.split(',')]`. -/
def fieldsOf (lq : PyStr) : List PyStr :=
  (splitOnSub ([',']) (selectPartOf lq)).map stripWS

/-- `w1.split('order by')[0].split('group by')[0].split('limit')[0]`. -/
def whereClauseOf (w1 : PyStr) : PyStr :=
  (splitOnSub kwLimit
    ((splitOnSub kwGroupBy
      ((splitOnSub kwOrderBy w1).headD [])).headD [])).headD []

/-- `if not query.lower().startswith('select'): raise ...`. -/
def startCheck (lq : PyStr) : Except VErr Unit :=
  if leadsWith kwSelect lq then .ok () else .error .mustStartSelect

/-- `if 'from' not in query.lower(): raise ...`. -/
def fromCheck (lq : PyStr) : Except VErr Unit :=
  if containsSub kwFrom lq then .ok () else .error .mustContainFrom

/-- `if len(fields) > 50: raise ...`. -/
def fieldCountCheck (lq : PyStr) : Except VErr Unit :=
  if (fieldsOf lq).length > 50 then .error .tooManyFields else .ok ()

/-- Body of the `'where' in query.lower()` branch: count `and`/`or`
substring occurrences in the clipped where-part, plus one. -/
def whereCheck (lq : PyStr) : Except VErr Unit :=
  match (splitOnSub kwWhere lq).get? 1 with
  | none => .error .indexErr
  | some w1 =>
    if countSub kwAnd (whereClauseOf w1) + countSub kwOr (whereClauseOf w1) + 1 > 25 then
      .error .tooManyCriteria
    else .ok ()

def whereGuard (lq : PyStr) : Except VErr Unit :=
  if containsSub kwWhere lq then whereCheck lq else .ok ()

/-- Body of the `'limit' in query.lower()` branch:
`limit_part = query.lower().split('limit')[1].strip().split()[0]`
then `int(limit_part) > 2000`. -/
def limitCheck (lq : PyStr) : Except VErr Unit :=
  match (splitOnSub kwLimit lq).get? 1 with
  | none => .error .indexErr
  | some l1 =>
    match (splitWS (stripWS l1)).head? with
    | none => .error .indexErr
    | some tok =>
      match pyIntParse tok with
      | none => .error (.intParseFailure tok)
      | some n => if n > 2000 then .error .limitExceeded else .ok ()

def limitGuard (lq : PyStr) : Except VErr Unit :=
  if containsSub kwLimit lq then limitCheck lq else .ok ()

/-- `dot_counts = [field.count('.') for field in fields]` and
`if max(dot_counts, default=0) > 2: raise ...`. -/
def joinCheck (lq : PyStr) : Except VErr Unit :=
  if maxD ((fieldsOf lq).map (fun f => countC '.' f)) > 2 then
    .error .maxTwoJoins
  else .ok ()

/-- Sequencing of two validator steps: the first exception wins. -/
def andThenB (a : Except VErr Unit) (b : Except VErr Bool) : Except VErr Bool :=
  match a with
  | .error e => .error e
  | .ok _ => b

/-- The `try` body of `validate_coql_query`: runs the checks in source
order and returns `True` when all pass. -/
def validateInner (q : PyStr) : Except VErr Bool :=
  let lq := lower q
  andThenB (startCheck lq) (andThenB (fromCheck lq) (andThenB (fieldCountCheck lq)
    (andThenB (whereGuard lq) (andThenB (limitGuard lq)
      (andThenB (joinCheck lq) (.ok true))))))

/-- The `ValueError(f"Invalid COQL query: {str(e)}")` wrapper raised by the
`except` clause of `validate_coql_query`: it carries the inner reason. -/
structure InvalidCoql where
  cause : VErr
deriving DecidableEq

/-- `NaturalToCoqlConverter.validate_coql_query`: returns `True` or raises
`ValueError` prefixed with "Invalid COQL query:" wrapping the inner reason. -/
def validate_coql_query (q : PyStr) : Except InvalidCoql Bool :=
  match validateInner q with
  | .ok b => .ok b
  | .error e => .error ⟨e⟩

/-! ## JSON values and the LLM-response parser
(`NaturalToCoqlConverter._parse_llm_response`) -/

/-- Structured values as produced by `json.loads`. -/
inductive J
  | s (v : PyStr)
  | n (v : Int)
  | b (v : Bool)
  | jnull
  | arr (vs : List J)
  | o (kvs : List (PyStr × J))

/-- Key lookup in an object's field list (Python `dict` access /
membership on the parsed object). -/
def jLookup (k : PyStr) : List (PyStr × J) → Option J
  | [] => none
  | kv :: rest => if kv.1 = k then some kv.2 else jLookup k rest

/-- Fields of an object value; any other shape has none. -/
def asFields : J → List (PyStr × J)
  | .o kvs => kvs
  | _ => []

def selectQueryKey : PyStr := "select_query".data

/-- Errors `_parse_llm_response` raises, one per `raise` site
(`json.JSONDecodeError` re-raised as "Invalid JSON response", the empty
array check, the dict check, and the missing-field check). -/
inductive PErr
  | invalidJson
  | emptyArray
  | expectedDict
  | missingSelectQuery
deriving DecidableEq

/-- The dict-shape and required-field checks of `_parse_llm_response`,
applied after the optional array unwrapping. -/
def checkRecord : J → Except PErr (List (PyStr × J))
  | .o kvs =>
    if (jLookup selectQueryKey kvs).isSome then .ok kvs
    else .error .missingSelectQuery
  | _ => .error .expectedDict

/-- `NaturalToCoqlConverter._parse_llm_response`.  Its input is the result
of `json.loads` on the fence-stripped response text: `none` stands for a
`json.JSONDecodeError`.  A list input is replaced by its first element
(`query_data = query_data[0]`) after the empty check. -/
def parse_llm_response : Option J → Except PErr (List (PyStr × J))
  | none => .error .invalidJson
  | some qd =>
    match qd with
    | .arr [] => .error .emptyArray
    | .arr (x :: _) => checkRecord x
    | other => checkRecord other

/-! ## The response processor (`ZohoResponseProcessor`) -/

/-- Field values of a CRM record, covering the JSON scalar shapes the
remote API returns in practice: strings, (integral) numbers and nulls. -/
inductive Value
  | vStr (s : PyStr)
  | vInt (n : Int)
  | vNull
deriving DecidableEq

abbrev Record := List (PyStr × Value)

def noneStr : PyStr := "None".data

/-- Python `str(n)` for an int. -/
def intRepr (n : Int) : PyStr :=
  if n < 0 then '-' :: digitsOf n.natAbs else digitsOf n.natAbs

/-- Python `str(amount)` on a field value. -/
def pyStrOf : Value → PyStr
  | .vStr s => s
  | .vInt n => intRepr n
  | .vNull => noneStr

/-- Result of Python `float(...)`: a finite magnitude kept as an exact
(unreduced) fraction `num / den` with the literal's sign held separately
(so `-0.0` keeps its minus in formatting), an infinity, or nan (whose
sign Python's formatting drops). -/
inductive PyFloat
  | fin (neg : Bool) (num den : Nat)
  | inf (neg : Bool)
  | nan
deriving DecidableEq

/-- Scan a run of decimal digits with single underscores allowed strictly
between digits (CPython's rule): the accumulated value, the number of
digits, and the unconsumed rest; `none` when an underscore is not
followed by a digit. -/
def scanRunGo : PyStr → Nat → Nat → Option (Nat × Nat × PyStr)
  | [], acc, nd => some (acc, nd, [])
  | c :: cs, acc, nd =>
    if isDigitC c then scanRunGo cs (acc * 10 + (c.toNat - 48)) (nd + 1)
    else if c = '_' then
      match cs with
      | [] => none
      | d :: _ => if isDigitC d then scanRunGo cs acc nd else none
    else some (acc, nd, c :: cs)

/-- A non-empty digit run (underscore rule included); fails on an empty
run or a misplaced underscore. -/
def scanRun : PyStr → Option (Nat × Nat × PyStr)
  | [] => none
  | c :: cs =>
    if isDigitC c then scanRunGo cs (c.toNat - 48) 1 else none

/-- The exponent suffix of a float literal: empty, or `e`/`E`, an optional
sign, and a digit run consuming the whole rest. -/
def expSuffix : PyStr → Option Int
  | [] => some 0
  | c :: cs =>
    if c = 'e' ∨ c = 'E' then
      match cs with
      | '+' :: r =>
        match scanRun r with
        | some (ev, _, []) => some ((ev : Int))
        | _ => none
      | '-' :: r =>
        match scanRun r with
        | some (ev, _, []) => some (-(ev : Int))
        | _ => none
      | r =>
        match scanRun r with
        | some (ev, _, []) => some ((ev : Int))
        | _ => none
    else none

/-- The mantissa of a float literal: `digits`, `digits.`, `digits.digits`
or `.digits`, returning its exact magnitude as an unreduced fraction
`num / den` together with the rest of the input (handed to `expSuffix`). -/
def mantissaScan : PyStr → Option ((Nat × Nat) × PyStr)
  | [] => none
  | '.' :: r =>
    match scanRun r with
    | some (fv, fd, rest) => some ((fv, 10 ^ fd), rest)
    | none => none
  | s =>
    match scanRun s with
    | none => none
    | some (iv, _, rest) =>
      match rest with
      | '.' :: r2 =>
        match r2 with
        | c :: cs2 =>
          if isDigitC c then
            match scanRun r2 with
            | some (fv, fd, rest2) => some ((iv * 10 ^ fd + fv, 10 ^ fd), rest2)
            | none => none
          else some ((iv, 1), c :: cs2)
        | [] => some ((iv, 1), [])
      | _ => some ((iv, 1), rest)

/-- Apply a signed decimal exponent to an unreduced fraction. -/
def applyExp (num den : Nat) (e : Int) : Nat × Nat :=
  if 0 ≤ e then (num * 10 ^ e.toNat, den) else (num, den * 10 ^ (-e).toNat)

/-- Python `float(s)` on the already-stripped string: an optional sign,
then `inf`/`infinity`/`nan` (case-insensitive) or a decimal mantissa with
an optional exponent.  The magnitude is the exact rational value of the
literal; Python converts it to the nearest binary double (raising
OverflowError outside the double range), so this reading is faithful
wherever the double represents the value closely enough not to disturb
the two-decimal rounding - in particular on all exactly-representable
values. -/
def pyFloatCore (s : PyStr) : Option PyFloat :=
  let neg : Bool := decide (s.head? = some '-')
  let t : PyStr := if s.head? = some '-' ∨ s.head? = some '+' then s.tail else s
  if lower t = ("inf".data) ∨ lower t = ("infinity".data) then some (.inf neg)
  else if lower t = ("nan".data) then some .nan
  else
    match mantissaScan t with
    | none => none
    | some ((num, den), rest) =>
      match expSuffix rest with
      | none => none
      | some e => some (.fin neg (applyExp num den e).1 (applyExp num den e).2)

/-- Python `float(s)`: surrounding whitespace is ignored. -/
def pyFloatParse (s : PyStr) : Option PyFloat := pyFloatCore (stripWS s)

/-- Round the non-negative fraction `num / den` to the nearest integer,
ties to even - the rounding `format` applies at the hundredths. -/
def roundHEfrac (num den : Nat) : Nat :=
  let n := num / den
  let r := num % den
  if den < 2 * r then n + 1
  else if 2 * r < den then n
  else if n % 2 = 0 then n else n + 1

/-- The two decimal digits of a cents remainder. -/
def twoDigits (m : Nat) : PyStr :=
  [Char.ofNat (48 + m / 10 % 10), Char.ofNat (48 + m % 10)]

/-- The f-string `{value:,.2f}` on a parsed float: sign, thousands-grouped
integer part and two rounded decimals; infinities and nan print as
`inf`/`-inf`/`nan`. -/
def floatFmt2 : PyFloat → PyStr
  | .fin neg num den =>
    let c := roundHEfrac (num * 100) den
    (if neg then ['-'] else []) ++ groupDigits (c / 100) ++ '.' :: twoDigits (c % 100)
  | .inf neg => (if neg then ['-'] else []) ++ ("inf".data)
  | .nan => "nan".data

/-- The `float(amount)` attempt of `_format_currency`: numbers convert
exactly (their literal sign kept), numeric strings go through
`pyFloatParse`, and `None` raises TypeError. -/
def floatOf : Value → Option PyFloat
  | .vInt n => some (.fin (decide (n < 0)) n.natAbs 1)
  | .vStr s => pyFloatParse s
  | .vNull => none

/-- The f-string `f"${value:,.2f}"` on an integral value: dollar sign,
then the sign, thousands-grouped digits and two zero decimals. -/
def moneyStr (n : Int) : PyStr :=
  '$' :: ((if n < 0 then '-' :: groupDigits n.natAbs else groupDigits n.natAbs)
          ++ (".00".data))

/-- `ZohoResponseProcessor._format_currency`: format the value as currency
when `float(...)` succeeds, otherwise fall back to `str(amount)`.  Either
way the result is a string. -/
def format_currency (amount : Value) : Value :=
  match floatOf amount with
  | some f => .vStr ('$' :: floatFmt2 f)
  | none => .vStr (pyStrOf amount)

/-- The list of currency-indicating substrings the processor looks for. -/
def currencyTerms : List PyStr :=
  [("amount".data), ("value".data), ("price".data), ("revenue".data)]

/-- `any(term in key.lower() for term in ['amount', 'value', 'price', 'revenue'])`. -/
def isCurrencyKey (key : PyStr) : Bool :=
  currencyTerms.any (fun t => containsSub t (lower key))

/-- The per-record formatting loop of `process_response`. -/
def formatRecord (r : Record) : Record :=
  r.map (fun kv => if isCurrencyKey kv.1 then (kv.1, format_currency kv.2) else kv)

/-- The remote result envelope: `data?` is the `'data'` entry of the Zoho
response (`none` when the key is absent). -/
structure Envelope where
  data? : Option (List Record)

/-- `ZohoResponseProcessor._clean_and_structure_data`:
`raw_data.get('data', [])`, with the falsy check collapsing to the same
empty list. -/
def clean_and_structure_data (raw : Envelope) : List Record :=
  match raw.data? with
  | none => []
  | some d => d

/-- The formatted record set handed to both LLM prompts. -/
def formatted_dataOf (env : Envelope) : List Record :=
  (clean_and_structure_data env).map formatRecord

def statusKey : PyStr := "status".data
def messageKey : PyStr := "message".data
def queryKey : PyStr := "query".data
def naturalKey : PyStr := "natural".data
def coqlKey : PyStr := "coql".data
def analysisKey : PyStr := "analysis".data
def narrativeKey : PyStr := "narrative".data
def tabularKey : PyStr := "tabular".data
def metadataKey : PyStr := "metadata".data
def timestampKey : PyStr := "timestamp".data
def recordCountKey : PyStr := "record_count".data
def successVal : PyStr := "success".data
def errorVal : PyStr := "error".data
def noDataMsg : PyStr := "No data found in response".data
def llmFailMsg : PyStr := "Failed to generate analysis".data

/-- The `{'status': 'error', 'message': 'No data found in response'}`
return value. -/
def noDataObj : J :=
  J.o [(statusKey, J.s errorVal), (messageKey, J.s noDataMsg)]

/-- The `{'status': 'error', 'message': 'Failed to generate analysis'}`
return value. -/
def llmFailObj : J :=
  J.o [(statusKey, J.s errorVal), (messageKey, J.s llmFailMsg)]

/-- An LLM summarization call: given the natural query, the COQL query and
the formatted record set embedded in the prompt, it returns generated text
or raises (`Except.error`).  The two calls of `process_response` are passed
in as oracles of this type. -/
abbrev LlmCall := PyStr → PyStr → List Record → Except PyStr PyStr

/-- `ZohoResponseProcessor.process_response`: extract the records, report
`no data` when empty, currency-format each record, run the two LLM calls
(either failure yields the analysis-failure object), and otherwise
assemble the success envelope.  `ts` is the `datetime.now().isoformat()`
timestamp. -/
def process_response (env : Envelope) (natural coql : PyStr)
    (narrLLM tabLLM : LlmCall) (ts : PyStr) : J :=
  match clean_and_structure_data env with
  | [] => noDataObj
  | r :: rs =>
    let fmtd := formatted_dataOf env
    match narrLLM natural coql fmtd with
    | .error _ => llmFailObj
    | .ok nt =>
      match tabLLM natural coql fmtd with
      | .error _ => llmFailObj
      | .ok tt =>
        J.o [(statusKey, J.s successVal),
             (queryKey, J.o [(naturalKey, J.s natural), (coqlKey, J.s coql)]),
             (analysisKey, J.o [(narrativeKey, J.s (stripWS nt)),
                                (tabularKey, J.s (stripWS tt))]),
             (metadataKey, J.o [(timestampKey, J.s ts),
                                (recordCountKey, J.n ((r :: rs).length : Int))])]

/-! ## The executor retry flow (`ZohoCoqlExecutor.execute_coql`) -/

/-- Externally visible actions of one `execute_coql` call. -/
inductive ExecEvent
  | tokenRefresh
  | queryPost
deriving DecidableEq

/-- Count occurrences of one event. -/
def countEv (e : ExecEvent) : List ExecEvent → Nat
  | [] => 0
  | x :: xs => (if x = e then 1 else 0) + countEv e xs

/-- Events strictly after the first query post. -/
def afterFirstPost (evs : List ExecEvent) : List ExecEvent :=
  (evs.dropWhile (fun e => e ≠ ExecEvent.queryPost)).drop 1

/-- `requests.Response.raise_for_status()` raises exactly for 4xx/5xx. -/
def raisesForStatus (st : Nat) : Bool :=
  (400 ≤ st && st < 600)

/-- `ZohoCoqlExecutor.execute_coql`, with token refresh modelled as always
succeeding and the remote endpoint as an oracle `st` giving the HTTP status
of the n-th POST of this call.  `hasTok` is whether `self.access_token` was
already set.  Result: the emitted event trace, and `ok` for a 2xx/3xx
final response or `error` carrying the status `raise_for_status` raised on.
Per the source: an initial refresh if no token is held; one POST; on 401
exactly one refresh and one retried POST; then `raise_for_status`. -/
def execute_coql (hasTok : Bool) (st : Nat → Nat) :
    List ExecEvent × Except Nat Unit :=
  let pre : List ExecEvent := if hasTok then [] else [.tokenRefresh]
  let s1 := st 0
  if s1 = 401 then
    let s2 := st 1
    (pre ++ [.queryPost, .tokenRefresh, .queryPost],
     if raisesForStatus s2 then .error s2 else .ok ())
  else
    (pre ++ [.queryPost],
     if raisesForStatus s1 then .error s1 else .ok ())

/-! ## Concrete inputs used by the claims -/

/-- A where clause built of `k + 1` criteria joined by `k` genuine ` and `
connectors. -/
def mkAnds : Nat → PyStr
  | 0 => "x = 1".data
  | n + 1 => mkAnds n ++ (" and x = 1".data)

/-- `k` copies of the letters `and` glued together inside one identifier. -/
def andRun : Nat → PyStr
  | 0 => []
  | n + 1 => ("and".data) ++ andRun n

def qAnds (k : Nat) : PyStr := ("select a from b where ".data) ++ mkAnds k

/-- A query whose where clause is a single criterion over one identifier
that merely contains the letters `and` 25 times. -/
def qC7cx : PyStr := ("select a from b where x".data) ++ andRun 25 ++ (" = 1".data)

/-- Modelled from the spec: the number of top-level `and`/`or` occurrences
of a where clause, read as whitespace-delimited connector words (the
reading under which only genuine connectors are counted). -/
def specTopLevelConnectors (wp : PyStr) : Nat :=
  ((splitWS wp).filter (fun w => decide (w = kwAnd ∨ w = kwOr))).length

/-- An LLM oracle that always returns an empty completion. -/
def llmOk : LlmCall := fun _ _ _ => .ok []

/-- An LLM oracle that always raises. -/
def llmErr : LlmCall := fun _ _ _ => .error []

/-! ## Lemmas about the validator's control flow -/

theorem andThenB_eq_ok {a : Except VErr Unit} {b : Except VErr Bool} {c : Bool} :
    andThenB a b = .ok c ↔ a = .ok () ∧ b = .ok c := by
  cases a with
  | error e => simp [andThenB]
  | ok u => cases u; simp [andThenB]

theorem andThenB_eq_error {a : Except VErr Unit} {b : Except VErr Bool} {e : VErr} :
    andThenB a b = .error e ↔ a = .error e ∨ (a = .ok () ∧ b = .error e) := by
  cases a with
  | error e' => simp [andThenB]
  | ok u => cases u; simp [andThenB]

theorem validateInner_ok_all {q : PyStr} {b : Bool} (h : validateInner q = .ok b) :
    startCheck (lower q) = .ok () ∧ fromCheck (lower q) = .ok () ∧
    fieldCountCheck (lower q) = .ok () ∧ whereGuard (lower q) = .ok () ∧
    limitGuard (lower q) = .ok () ∧ joinCheck (lower q) = .ok () ∧ b = true := by
  simp only [validateInner] at h
  rcases andThenB_eq_ok.mp h with ⟨h1, h⟩
  rcases andThenB_eq_ok.mp h with ⟨h2, h⟩
  rcases andThenB_eq_ok.mp h with ⟨h3, h⟩
  rcases andThenB_eq_ok.mp h with ⟨h4, h⟩
  rcases andThenB_eq_ok.mp h with ⟨h5, h⟩
  rcases andThenB_eq_ok.mp h with ⟨h6, h⟩
  refine ⟨h1, h2, h3, h4, h5, h6, ?_⟩
  injection h with h
  exact h.symm

theorem validateInner_error_src {q : PyStr} {e : VErr}
    (h : validateInner q = .error e) :
    startCheck (lower q) = .error e ∨ fromCheck (lower q) = .error e ∨
    fieldCountCheck (lower q) = .error e ∨ whereGuard (lower q) = .error e ∨
    limitGuard (lower q) = .error e ∨ joinCheck (lower q) = .error e := by
  simp only [validateInner] at h
  rcases andThenB_eq_error.mp h with h | ⟨-, h⟩
  · exact Or.inl h
  rcases andThenB_eq_error.mp h with h | ⟨-, h⟩
  · exact Or.inr (Or.inl h)
  rcases andThenB_eq_error.mp h with h | ⟨-, h⟩
  · exact Or.inr (Or.inr (Or.inl h))
  rcases andThenB_eq_error.mp h with h | ⟨-, h⟩
  · exact Or.inr (Or.inr (Or.inr (Or.inl h)))
  rcases andThenB_eq_error.mp h with h | ⟨-, h⟩
  · exact Or.inr (Or.inr (Or.inr (Or.inr (Or.inl h))))
  rcases andThenB_eq_error.mp h with h | ⟨-, h⟩
  · exact Or.inr (Or.inr (Or.inr (Or.inr (Or.inr h))))
  · simp at h

theorem validate_eq_ok {q : PyStr} {b : Bool} :
    validate_coql_query q = .ok b ↔ validateInner q = .ok b := by
  unfold validate_coql_query
  cases h : validateInner q <;> simp

theorem validate_eq_error {q : PyStr} {e : VErr} :
    validate_coql_query q = .error ⟨e⟩ ↔ validateInner q = .error e := by
  unfold validate_coql_query
  cases h : validateInner q <;> simp [InvalidCoql.mk.injEq]

theorem fromCheck_shape (lq : PyStr) :
    fromCheck lq = .ok () ∨ fromCheck lq = .error .mustContainFrom := by
  unfold fromCheck; split <;> simp

theorem fieldCountCheck_shape (lq : PyStr) :
    fieldCountCheck lq = .ok () ∨ fieldCountCheck lq = .error .tooManyFields := by
  unfold fieldCountCheck; split <;> simp

theorem whereCheck_shape (lq : PyStr) :
    whereCheck lq = .ok () ∨ whereCheck lq = .error .indexErr ∨
    whereCheck lq = .error .tooManyCriteria := by
  unfold whereCheck
  split
  · simp
  · split <;> simp

theorem whereGuard_shape (lq : PyStr) :
    whereGuard lq = .ok () ∨ whereGuard lq = .error .indexErr ∨
    whereGuard lq = .error .tooManyCriteria := by
  unfold whereGuard
  split
  · exact whereCheck_shape lq
  · simp

theorem limitCheck_shape (lq : PyStr) :
    limitCheck lq = .ok () ∨ limitCheck lq = .error .indexErr ∨
    (∃ t, limitCheck lq = .error (.intParseFailure t)) ∨
    limitCheck lq = .error .limitExceeded := by
  unfold limitCheck
  split
  · simp
  · split
    · simp
    · split
      · simp
      · split <;> simp

theorem limitGuard_shape (lq : PyStr) :
    limitGuard lq = .ok () ∨ limitGuard lq = .error .indexErr ∨
    (∃ t, limitGuard lq = .error (.intParseFailure t)) ∨
    limitGuard lq = .error .limitExceeded := by
  unfold limitGuard
  split
  · exact limitCheck_shape lq
  · simp

theorem joinCheck_shape (lq : PyStr) :
    joinCheck lq = .ok () ∨ joinCheck lq = .error .maxTwoJoins := by
  unfold joinCheck; split <;> simp

theorem mem_le_maxD {x : Nat} {l : List Nat} (h : x ∈ l) : x ≤ maxD l := by
  induction l with
  | nil => cases h
  | cons a t ih =>
    rcases List.mem_cons.mp h with rfl | h
    · exact le_max_left _ _
    · exact le_trans (ih h) (le_max_right _ _)

/-! ## String-scanning lemmas -/

theorem leadsWith_self_append (p t : PyStr) : leadsWith p (p ++ t) = true := by
  induction p with
  | nil => rfl
  | cons c cs ih => simp [leadsWith, ih]

/-- A match of `p` at the front of `z ++ y` only looks at `z` when `z` is
at least as long as `p`. -/
theorem leadsWith_append_of_le {p : PyStr} :
    ∀ {z : PyStr}, p.length ≤ z.length → ∀ y, leadsWith p (z ++ y) = leadsWith p z := by
  induction p with
  | nil => intro z _ y; rfl
  | cons c cs ih =>
    intro z hz y
    cases z with
    | nil => simp at hz
    | cons d ds =>
      simp only [List.cons_append, leadsWith, List.append_eq]
      rw [ih (Nat.succ_le_succ_iff.mp (by simpa using hz)) y]

theorem digit_not_space {c : Char} (h : isDigitC c = true) : isSpaceChar c = false := by
  simp only [isDigitC, Bool.and_eq_true, decide_eq_true_eq] at h
  simp only [isSpaceChar, Bool.or_eq_false_iff, decide_eq_false_iff_not]
  omega

theorem digit_lowerChar {c : Char} (h : isDigitC c = true) : lowerChar c = c := by
  have h' : ¬(65 ≤ c.toNat ∧ c.toNat ≤ 90) := by
    simp only [isDigitC, Bool.and_eq_true, decide_eq_true_eq] at h
    omega
  simp [lowerChar, h']

theorem lower_digits {ds : PyStr} (h : ∀ c ∈ ds, isDigitC c = true) :
    lower ds = ds := by
  induction ds with
  | nil => rfl
  | cons c cs ih =>
    simp only [lower, List.map_cons]
    rw [digit_lowerChar (h c (List.mem_cons_self c cs))]
    have := ih (fun x hx => h x (List.mem_cons_of_mem c hx))
    simpa [lower] using this

/-- A pattern with no digit characters cannot match at the front of a
no-shorter all-digit continuation, so appending an all-digit string never
creates a new front match. -/
theorem leadsWith_append_digits {pat ds : PyStr}
    (hpat : ∀ c ∈ pat, isDigitC c = false) (hds : ∀ c ∈ ds, isDigitC c = true) :
    ∀ y, leadsWith pat (y ++ ds) = leadsWith pat y := by
  induction pat with
  | nil => intro y; rfl
  | cons p ps ih =>
    intro y
    cases y with
    | nil =>
      simp only [List.nil_append]
      cases ds with
      | nil => rfl
      | cons d ds' =>
        simp only [leadsWith]
        have hp : isDigitC p = false := hpat p (List.mem_cons_self p ps)
        have hd : isDigitC d = true := hds d (List.mem_cons_self d ds')
        have : (p == d) = false := by
          apply beq_eq_false_iff_ne.mpr
          intro he
          rw [he] at hp
          rw [hp] at hd
          cases hd
        simp [this]
    | cons c ys =>
      simp only [List.cons_append, leadsWith, List.append_eq]
      rw [ih (fun x hx => hpat x (List.mem_cons_of_mem p hx)) ys]

theorem containsSub_digits_eq_false {p : Char} {ps ds : PyStr}
    (hpat : ∀ c ∈ p :: ps, isDigitC c = false)
    (hds : ∀ c ∈ ds, isDigitC c = true) :
    containsSub (p :: ps) ds = false := by
  induction ds with
  | nil => rfl
  | cons d ds' ih =>
    simp only [containsSub, Bool.or_eq_false_iff]
    constructor
    · simp only [leadsWith]
      have hp : isDigitC p = false := hpat p (List.mem_cons_self p ps)
      have hd : isDigitC d = true := hds d (List.mem_cons_self d ds')
      have : (p == d) = false := by
        apply beq_eq_false_iff_ne.mpr
        intro he
        rw [he] at hp
        rw [hp] at hd
        cases hd
      simp [this]
    · exact ih (fun x hx => hds x (List.mem_cons_of_mem d hx))

/-- Appending an all-digit string to `a` does not change whether a
digit-free pattern occurs. -/
theorem containsSub_append_digits {pat ds : PyStr} (a : PyStr)
    (hpat : ∀ c ∈ pat, isDigitC c = false) (hds : ∀ c ∈ ds, isDigitC c = true) :
    containsSub pat (a ++ ds) = containsSub pat a := by
  induction a with
  | nil =>
    cases pat with
    | nil => cases ds <;> rfl
    | cons p ps =>
      simp only [List.nil_append]
      rw [containsSub_digits_eq_false hpat hds]
      rfl
  | cons x a' ih =>
    simp only [List.cons_append, containsSub, List.append_eq]
    rw [show (x :: (a' ++ ds) : PyStr) = (x :: a') ++ ds from rfl,
        leadsWith_append_digits hpat hds (x :: a'), ih]

/-- With no occurrence of the separator, scanning yields a single chunk. -/
theorem splitGo_no_occ {sep : PyStr} :
    ∀ {s : PyStr}, containsSub sep s = false →
      ∀ fuel cur, splitGo sep fuel s cur = [cur.reverse ++ s] := by
  intro s
  induction s with
  | nil =>
    intro _ fuel cur
    cases fuel <;> simp [splitGo]
  | cons c cs ih =>
    intro h fuel cur
    cases fuel with
    | zero => rfl
    | succ f =>
      simp only [containsSub, Bool.or_eq_false_iff] at h
      simp only [splitGo, h.1, if_false]
      rw [ih h.2 f (c :: cur)]
      simp

theorem splitOnSub_no_occ {sep s : PyStr} (h : containsSub sep s = false) :
    splitOnSub sep s = [s] := by
  unfold splitOnSub
  rw [splitGo_no_occ h]
  rfl

/-- With enough fuel the scan result does not depend on the exact fuel. -/
theorem splitGo_fuel_eq {sep : PyStr} (hsep : sep ≠ []) :
    ∀ fuel₁ fuel₂ s cur, s.length ≤ fuel₁ → s.length ≤ fuel₂ →
      splitGo sep fuel₁ s cur = splitGo sep fuel₂ s cur := by
  intro fuel₁
  induction fuel₁ with
  | zero =>
    intro fuel₂ s cur h1 _
    have : s = [] := List.length_eq_zero.mp (Nat.le_zero.mp h1)
    subst this
    cases fuel₂ <;> simp [splitGo]
  | succ f1 ih =>
    intro fuel₂ s cur h1 h2
    cases fuel₂ with
    | zero =>
      have : s = [] := List.length_eq_zero.mp (Nat.le_zero.mp h2)
      subst this
      simp [splitGo]
    | succ f2 =>
      cases s with
      | nil => rfl
      | cons c cs =>
        simp only [splitGo]
        split
        · have hlen : (List.drop sep.length (c :: cs)).length ≤ f1 ∧
              (List.drop sep.length (c :: cs)).length ≤ f2 := by
            have hsl : 1 ≤ sep.length := by
              cases sep with
              | nil => exact absurd rfl hsep
              | cons _ _ => simp
            simp only [List.length_drop, List.length_cons] at *
            omega
          rw [ih f2 _ [] hlen.1 hlen.2]
        · have : cs.length ≤ f1 ∧ cs.length ≤ f2 := by
            simp only [List.length_cons] at h1 h2
            omega
          rw [ih f2 cs (c :: cur) this.1 this.2]

/-- Head-match condition for splitting around an explicit separator
occurrence: no non-empty suffix of `a` extended by the separator starts
with the separator. -/
def NoEarlyMatch (sep a : PyStr) : Prop :=
  ∀ a2 ∈ a.tails, a2 = [] ∨ leadsWith sep (a2 ++ sep) = false

instance (sep a : PyStr) : Decidable (NoEarlyMatch sep a) := by
  unfold NoEarlyMatch
  infer_instance

theorem splitGo_append_sep {sep : PyStr} (hsep : sep ≠ []) :
    ∀ (a : PyStr), NoEarlyMatch sep a → ∀ (b : PyStr) (cur : PyStr) (fuel : Nat),
      (a ++ sep ++ b).length ≤ fuel →
      splitGo sep fuel (a ++ sep ++ b) cur = (cur.reverse ++ a) :: splitOnSub sep b := by
  intro a
  induction a with
  | nil =>
    intro _ b cur fuel hfuel
    obtain ⟨p, ps, hs⟩ : ∃ p ps, sep = p :: ps := by
      cases sep with
      | nil => exact absurd rfl hsep
      | cons p ps => exact ⟨p, ps, rfl⟩
    cases fuel with
    | zero =>
      exfalso
      rw [hs] at hfuel
      simp at hfuel
    | succ f =>
      have hcons : sep ++ b = p :: (ps ++ b) := by rw [hs]; rfl
      rw [List.nil_append, hcons]
      simp only [splitGo]
      have hlead : leadsWith sep (p :: (ps ++ b)) = true := by
        rw [← hcons]
        exact leadsWith_self_append sep b
      rw [if_pos hlead]
      have hdrop : List.drop sep.length (p :: (ps ++ b)) = b := by
        rw [← hcons]
        exact List.drop_left sep b
      rw [hdrop]
      have hb1 : b.length ≤ f := by
        rw [hs] at hfuel
        simp only [List.nil_append, List.append_assoc, List.length_append,
          List.length_cons] at hfuel
        omega
      rw [splitGo_fuel_eq hsep f (b.length + 1) b [] hb1 (by omega)]
      simp [splitOnSub]
  | cons x a' ih =>
    intro hH b cur fuel hfuel
    cases fuel with
    | zero => simp at hfuel
    | succ f =>
      have hstep : leadsWith sep ((x :: a') ++ sep ++ b) = false := by
        have h1 : leadsWith sep ((x :: a') ++ sep ++ b) =
            leadsWith sep ((x :: a') ++ sep) :=
          leadsWith_append_of_le
            (by simp only [List.length_append, List.length_cons]; omega) b
        rcases hH (x :: a') (by simp [List.mem_tails]) with h | h
        · cases h
        · rw [h1, h]
      simp only [List.cons_append, List.append_assoc] at hstep ⊢
      simp only [splitGo]
      rw [if_neg (by simp [hstep])]
      have hH' : NoEarlyMatch sep a' := by
        intro a2 ha2
        exact hH a2 (by
          rw [List.mem_tails] at ha2 ⊢
          exact ha2.trans (List.suffix_cons x a'))
      have := ih hH' b (x :: cur) f (by
        simp only [List.append_assoc, List.length_append, List.length_cons] at hfuel ⊢
        omega)
      simp only [List.append_assoc] at this
      rw [this]
      simp

theorem splitOnSub_append_sep {sep : PyStr} (hsep : sep ≠ []) {a : PyStr}
    (hH : NoEarlyMatch sep a) (b : PyStr) :
    splitOnSub sep (a ++ sep ++ b) = a :: splitOnSub sep b := by
  unfold splitOnSub
  rw [splitGo_append_sep hsep a hH b [] _ (by simp)]
  rfl

theorem stripL_no_space {s : PyStr} (h : ∀ c ∈ s, isSpaceChar c = false) :
    stripL s = s := by
  cases s with
  | nil => rfl
  | cons c cs =>
    unfold stripL
    rw [List.dropWhile_cons_of_neg]
    simp [h c (List.mem_cons_self c cs)]

theorem stripWS_no_space {s : PyStr} (h : ∀ c ∈ s, isSpaceChar c = false) :
    stripWS s = s := by
  unfold stripWS
  rw [stripL_no_space h, stripL_no_space (fun c hc => h c (List.mem_reverse.mp hc))]
  exact List.reverse_reverse s

theorem stripWS_space_cons {ds : PyStr} (h : ∀ c ∈ ds, isSpaceChar c = false) :
    stripWS (' ' :: ds) = ds := by
  unfold stripWS
  have h1 : stripL (' ' :: ds) = stripL ds := by
    unfold stripL
    rw [List.dropWhile_cons_of_pos]
    rfl
  rw [h1, stripL_no_space h,
      stripL_no_space (fun c hc => h c (List.mem_reverse.mp hc))]
  exact List.reverse_reverse ds

theorem splitWSGo_no_space {s : PyStr} (h : ∀ c ∈ s, isSpaceChar c = false) :
    ∀ cur, cur ≠ [] ∨ s ≠ [] → splitWSGo s cur = [cur.reverse ++ s] := by
  induction s with
  | nil =>
    intro cur hc
    have : cur ≠ [] := by
      rcases hc with hc | hc
      · exact hc
      · exact absurd rfl hc
    simp [splitWSGo, this]
  | cons c cs ih =>
    intro cur _
    have hc : isSpaceChar c = false := h c (List.mem_cons_self c cs)
    simp only [splitWSGo, hc, Bool.false_eq_true, if_false]
    rw [ih (fun x hx => h x (List.mem_cons_of_mem c hx)) (c :: cur) (Or.inl (by simp))]
    simp

theorem splitWS_no_space {s : PyStr} (h : ∀ c ∈ s, isSpaceChar c = false)
    (hne : s ≠ []) : splitWS s = [s] := by
  unfold splitWS
  rw [splitWSGo_no_space h [] (Or.inr hne)]
  rfl

theorem digitsGo_digits {ds : PyStr} (h : ∀ c ∈ ds, isDigitC c = true) :
    ∀ acc, digitsGo ds acc true = some (ds.foldl (fun a c => a * 10 + (c.toNat - 48)) acc) ∧
      (ds ≠ [] → digitsGo ds acc false =
        some (ds.foldl (fun a c => a * 10 + (c.toNat - 48)) acc)) := by
  induction ds with
  | nil =>
    intro acc
    exact ⟨rfl, fun hne => absurd rfl hne⟩
  | cons c cs ih =>
    intro acc
    have hc : isDigitC c = true := h c (List.mem_cons_self c cs)
    have ihcs := ih (fun x hx => h x (List.mem_cons_of_mem c hx))
    constructor
    · simp only [digitsGo, hc, if_true, List.foldl_cons]
      exact (ihcs _).1
    · intro _
      simp only [digitsGo, hc, if_true, List.foldl_cons]
      exact (ihcs _).1

theorem digit_not_plus {c : Char} (h : isDigitC c = true) : ¬(c = '+') := by
  intro he
  rw [he] at h
  exact absurd h (by decide)

theorem digit_not_dash {c : Char} (h : isDigitC c = true) : ¬(c = '-') := by
  intro he
  rw [he] at h
  exact absurd h (by decide)

theorem pyIntParse_digits {ds : PyStr} (hne : ds ≠ [])
    (h : ∀ c ∈ ds, isDigitC c = true) :
    pyIntParse ds = some ((digitsVal ds : Nat) : Int) := by
  unfold pyIntParse
  rw [stripWS_no_space (fun c hc => digit_not_space (h c hc))]
  cases ds with
  | nil => exact absurd rfl hne
  | cons c cs =>
    have hc : isDigitC c = true := h c (List.mem_cons_self c cs)
    simp only [pyIntCore]
    rw [if_neg (digit_not_plus hc), if_neg (digit_not_dash hc)]
    rw [(digitsGo_digits h 0).2 (by simp)]
    rfl

/-! ## Float-formatting lemmas -/

theorem roundHEfrac_one (m : Nat) : roundHEfrac m 1 = m := by
  unfold roundHEfrac
  simp [Nat.div_one, Nat.mod_one]

theorem floatFmt2_int (neg : Bool) (m : Nat) :
    floatFmt2 (.fin neg m 1) =
      (if neg then ['-'] else []) ++ (groupDigits m ++ (".00".data)) := by
  have h2 : m * 100 / 100 = m := Nat.mul_div_cancel m (by norm_num)
  have h3 : m * 100 % 100 = 0 := Nat.mul_mod_left m 100
  simp only [floatFmt2, roundHEfrac_one, h2, h3]
  rw [List.append_assoc]
  have h4 : twoDigits 0 = ['0', '0'] := by decide
  rw [h4]

theorem format_currency_int (n : Int) :
    format_currency (.vInt n) = .vStr (moneyStr n) := by
  simp only [format_currency, floatOf]
  rw [floatFmt2_int]
  unfold moneyStr
  by_cases hn : n < 0 <;> simp [hn]

/-! ## The validator on the canonical limit template, for every numeric value -/

/-- The query prefix used to exercise the limit check on an arbitrary
numeric literal. -/
def limTpl : PyStr := "select a from b limit ".data

theorem lower_limTpl_append {ds : PyStr} (hdig : ∀ c ∈ ds, isDigitC c = true) :
    lower (limTpl ++ ds) = limTpl ++ ds := by
  have h1 : lower limTpl = limTpl := by decide
  calc lower (limTpl ++ ds) = lower limTpl ++ lower ds := by simp [lower]
  _ = limTpl ++ ds := by rw [h1, lower_digits hdig]

theorem fieldsOf_limTpl (ds : PyStr) :
    fieldsOf (limTpl ++ ds) = [("a".data)] := by
  have he : limTpl ++ ds =
      ("select a ".data) ++ kwFrom ++ ((" b limit ".data) ++ ds) := by
    have h0 : limTpl = ("select a ".data) ++ kwFrom ++ (" b limit ".data) := by decide
    rw [h0, List.append_assoc]
  have hsplit : splitOnSub kwFrom (limTpl ++ ds) =
      ("select a ".data) :: splitOnSub kwFrom ((" b limit ".data) ++ ds) := by
    rw [he]
    exact splitOnSub_append_sep (by decide) (by decide) _
  unfold fieldsOf selectPartOf
  rw [hsplit]
  simp only [List.headD_cons]
  decide

theorem splitLim_limTpl {ds : PyStr} (hdig : ∀ c ∈ ds, isDigitC c = true) :
    splitOnSub kwLimit (limTpl ++ ds) = [("select a from b ".data), ' ' :: ds] := by
  have he : limTpl ++ ds = ("select a from b ".data) ++ kwLimit ++ (' ' :: ds) := by
    have h0 : limTpl = ("select a from b ".data) ++ kwLimit ++ (" ".data) := by decide
    rw [h0, List.append_assoc]
    rfl
  rw [he, splitOnSub_append_sep (by decide) (by decide) _]
  have hno : containsSub kwLimit (' ' :: ds) = false := by
    rw [show (' ' :: ds : PyStr) = [' '] ++ ds from rfl,
        containsSub_append_digits [' '] (by decide) hdig]
    decide
  rw [splitOnSub_no_occ hno]

theorem validate_limit_template {ds : PyStr} (hne : ds ≠ [])
    (hdig : ∀ c ∈ ds, isDigitC c = true) :
    validate_coql_query (limTpl ++ ds) =
      (if digitsVal ds ≤ 2000 then .ok true else .error ⟨.limitExceeded⟩) := by
  have hlq := lower_limTpl_append hdig
  have hstart : startCheck (limTpl ++ ds) = .ok () := by
    unfold startCheck
    rw [if_pos (by
      rw [@leadsWith_append_of_le kwSelect limTpl (by decide) ds]
      decide)]
  have hfrom : fromCheck (limTpl ++ ds) = .ok () := by
    unfold fromCheck
    rw [if_pos (by
      rw [containsSub_append_digits limTpl (by decide) hdig]
      decide)]
  have hfieldsv := fieldsOf_limTpl ds
  have hfc : fieldCountCheck (limTpl ++ ds) = .ok () := by
    unfold fieldCountCheck
    rw [hfieldsv, if_neg (by decide)]
  have hwg : whereGuard (limTpl ++ ds) = .ok () := by
    unfold whereGuard
    rw [if_neg (by
      rw [containsSub_append_digits limTpl (by decide) hdig]
      decide)]
  have hlc : limitCheck (limTpl ++ ds) =
      (if (2000 : Int) < ((digitsVal ds : Nat) : Int) then .error .limitExceeded
       else .ok ()) := by
    unfold limitCheck
    rw [splitLim_limTpl hdig]
    simp only [List.get?_cons_succ, List.get?_cons_zero]
    rw [stripWS_space_cons (fun c hc => digit_not_space (hdig c hc)),
        splitWS_no_space (fun c hc => digit_not_space (hdig c hc)) hne]
    simp only [List.head?_cons]
    rw [pyIntParse_digits hne hdig]
  have hlg : limitGuard (limTpl ++ ds) =
      (if (2000 : Int) < ((digitsVal ds : Nat) : Int) then .error .limitExceeded
       else .ok ()) := by
    unfold limitGuard
    rw [if_pos (by
      rw [containsSub_append_digits limTpl (by decide) hdig]
      decide), hlc]
  have hjoin : joinCheck (limTpl ++ ds) = .ok () := by
    unfold joinCheck
    rw [hfieldsv, if_neg (by decide)]
  have hinner : validateInner (limTpl ++ ds) =
      (if (2000 : Int) < ((digitsVal ds : Nat) : Int) then .error .limitExceeded
       else .ok true) := by
    simp only [validateInner, hlq, hstart, hfrom, hfc, hwg, hlg, hjoin, andThenB]
    by_cases hgt : (2000 : Int) < ((digitsVal ds : Nat) : Int)
    · rw [if_pos hgt, if_pos hgt]
    · rw [if_neg hgt, if_neg hgt]
  by_cases hle : digitsVal ds ≤ 2000
  · rw [if_pos hle]
    unfold validate_coql_query
    rw [hinner, if_neg (by omega)]
  · rw [if_neg hle]
    unfold validate_coql_query
    rw [hinner, if_pos (by omega)]

/-! ## Claim theorems: the validator -/

/-- C1 (counterexample): the input `" select a from b"` starts with
`select` once leading whitespace is ignored, yet `validate_coql_query`
fails it with the must-start-with-SELECT reason — the code never strips
leading whitespace. -/
theorem c1_start_select_counterexample :
    leadsWith kwSelect (lower (stripL ((" select a from b".data)))) = true ∧
    validate_coql_query ((" select a from b".data)) = .error ⟨.mustStartSelect⟩ :=
  ⟨by decide, by rfl⟩

/-- C1 (amended): the start-with-SELECT check passes exactly for query
strings that themselves (lower-cased, with no allowance for leading
whitespace) start with `select`; every other string fails with the
must-start-with-SELECT reason. -/
theorem c1_start_select_amended (q : PyStr) :
    (leadsWith kwSelect (lower q) = false →
      validate_coql_query q = .error ⟨.mustStartSelect⟩) ∧
    (leadsWith kwSelect (lower q) = true →
      validate_coql_query q ≠ .error ⟨.mustStartSelect⟩) := by
  constructor
  · intro h
    apply validate_eq_error.mpr
    simp [validateInner, andThenB, startCheck, h]
  · intro h hc
    have hinner : validateInner q = .error .mustStartSelect := validate_eq_error.mp hc
    have hstart : startCheck (lower q) = .ok () := by simp [startCheck, h]
    rcases validateInner_error_src hinner with h1 | h1 | h1 | h1 | h1 | h1
    · rw [hstart] at h1
      cases h1
    · rcases fromCheck_shape (lower q) with h2 | h2 <;> rw [h2] at h1 <;> simp at h1
    · rcases fieldCountCheck_shape (lower q) with h2 | h2 <;> rw [h2] at h1 <;>
        simp at h1
    · rcases whereGuard_shape (lower q) with h2 | h2 | h2 <;> rw [h2] at h1 <;>
        simp at h1
    · rcases limitGuard_shape (lower q) with h2 | h2 | ⟨t, h2⟩ | h2 <;>
        rw [h2] at h1 <;> simp at h1
    · rcases joinCheck_shape (lower q) with h2 | h2 <;> rw [h2] at h1 <;> simp at h1

/-- C1 (witness): a concrete non-`select` query is rejected with the
must-start-with-SELECT reason. -/
theorem c1_start_select_witness :
    validate_coql_query (("where x from".data)) = .error ⟨.mustStartSelect⟩ :=
  (c1_start_select_amended (("where x from".data))).1 (by decide)

/-- C6: for any query `select a from b limit <digits>` the limit check
passes exactly when the numeric value is at most 2000, and concretely
`limit 2000` passes, `limit 2001` fails with the limit reason, and
`limit abc` fails with Python's numeric-parse error. -/
theorem c6_limit_check :
    (∀ ds : PyStr, ds ≠ [] → (∀ c ∈ ds, isDigitC c = true) →
      validate_coql_query (limTpl ++ ds) =
        (if digitsVal ds ≤ 2000 then .ok true else .error ⟨.limitExceeded⟩)) ∧
    validate_coql_query (("select a from b limit 2000".data)) = .ok true ∧
    validate_coql_query (("select a from b limit 2001".data)) =
      .error ⟨.limitExceeded⟩ ∧
    validate_coql_query (("select a from b limit abc".data)) =
      .error ⟨.intParseFailure (("abc".data))⟩ :=
  ⟨fun _ hne hdig => validate_limit_template hne hdig, by rfl, by rfl, by rfl⟩

/-- C6 (witness): the universal part applied at the digit string `2000`. -/
theorem c6_limit_check_witness :
    validate_coql_query (limTpl ++ (("2000".data))) = .ok true := by
  have h := c6_limit_check.1 (("2000".data)) (by decide) (by decide)
  rw [if_pos (by decide)] at h
  exact h

/-- C7 (counterexample): a query whose where clause is one single
criterion with no top-level `and`/`or` connector at all (its identifier
merely contains the letters `and` 25 times) is rejected with the
too-many-criteria reason, because the code counts substring occurrences,
not top-level connectors. -/
theorem c7_criteria_counterexample :
    validate_coql_query qC7cx = .error ⟨.tooManyCriteria⟩ ∧
    specTopLevelConnectors (whereClauseOf
      ((splitOnSub kwWhere (lower qC7cx)).getD 1 [])) = 0 :=
  ⟨by rfl, by rfl⟩

/-- C7 (amended): the validator counts substring occurrences of `and` and
`or` anywhere in the clipped where-part; with that counting, 24 connector
occurrences (25 criteria) pass and 25 occurrences (26 criteria) fail. -/
theorem c7_criteria_amended :
    validate_coql_query (qAnds 24) = .ok true ∧
    validate_coql_query (qAnds 25) = .error ⟨.tooManyCriteria⟩ ∧
    countSub kwAnd (whereClauseOf
      ((splitOnSub kwWhere (lower (qAnds 24))).getD 1 [])) = 24 ∧
    countSub kwAnd (whereClauseOf
      ((splitOnSub kwWhere (lower (qAnds 25))).getD 1 [])) = 25 :=
  ⟨by rfl, by rfl, by rfl, by rfl⟩

/-- C8: the join-depth check passes `a.b.c` (2 dots), fails `a.b.c.d`
(3 dots) with the max-two-joins reason, and any accepted query has at
most 2 literal dots in every selected field expression. -/
theorem c8_join_depth :
    validate_coql_query (("select a.b.c from t".data)) = .ok true ∧
    validate_coql_query (("select a.b.c.d from t".data)) = .error ⟨.maxTwoJoins⟩ ∧
    ∀ q : PyStr, ∀ f ∈ fieldsOf (lower q),
      validate_coql_query q = .ok true → countC '.' f ≤ 2 := by
  refine ⟨by rfl, by rfl, ?_⟩
  intro q f hf hok
  have hinner : validateInner q = .ok true := validate_eq_ok.mp hok
  have hjoin := (validateInner_ok_all hinner).2.2.2.2.2.1
  unfold joinCheck at hjoin
  by_cases hc : maxD ((fieldsOf (lower q)).map (fun g => countC '.' g)) > 2
  · rw [if_pos hc] at hjoin
    cases hjoin
  · have hle : countC '.' f ≤ maxD ((fieldsOf (lower q)).map (fun g => countC '.' g)) :=
      mem_le_maxD (List.mem_map_of_mem _ hf)
    omega

/-- C8 (witness): the universal part applied to the accepted query
`select a.b.c from t` and its field `a.b.c`. -/
theorem c8_join_depth_witness : countC '.' (("a.b.c".data)) ≤ 2 :=
  c8_join_depth.2.2 (("select a.b.c from t".data)) (("a.b.c".data))
    (by decide) (by rfl)

/-- C9: on every input, `validate_coql_query` either returns `True` or
raises a wrapped "Invalid COQL query:" `ValueError`; it never returns
`False`, so the falsy-return branch in `convert_to_coql` is unreachable. -/
theorem c9_validator_totality (q : PyStr) :
    validate_coql_query q = .ok true ∨
    ∃ e : VErr, validate_coql_query q = .error ⟨e⟩ := by
  cases h : validateInner q with
  | ok b =>
    have hb := (validateInner_ok_all h).2.2.2.2.2.2
    subst hb
    exact Or.inl (validate_eq_ok.mpr h)
  | error e =>
    exact Or.inr ⟨e, validate_eq_error.mpr h⟩

/-! ## Claim theorems: the LLM-response parser -/

/-- C3 (counterexample): a two-element sequence whose first element is a
record containing `select_query` is accepted — `query_data[0]` silently
takes the first element and ignores the rest — while the claim says every
sequence of more than one element is rejected. -/
theorem c3_parse_counterexample :
    parse_llm_response (some (J.arr
      [J.o [(selectQueryKey, J.s (("q".data)))], J.o []])) =
      .ok [(selectQueryKey, J.s (("q".data)))] := by
  rfl

/-- C3 (amended): the parser accepts a single record, or any non-empty
sequence through its first element alone (later elements are ignored);
malformed JSON, the empty sequence, a non-record first element and a
record missing `select_query` are each rejected with the corresponding
invalid-response error. -/
theorem c3_parse_amended :
    parse_llm_response none = .error .invalidJson ∧
    parse_llm_response (some (J.arr [])) = .error .emptyArray ∧
    (∀ x rest, parse_llm_response (some (J.arr (x :: rest))) = checkRecord x) ∧
    (∀ kvs, parse_llm_response (some (J.o kvs)) = checkRecord (J.o kvs)) ∧
    (∀ kvs, checkRecord (J.o kvs) =
      if (jLookup selectQueryKey kvs).isSome then .ok kvs
      else .error .missingSelectQuery) ∧
    (∀ s, checkRecord (J.s s) = .error .expectedDict) ∧
    (∀ n, checkRecord (J.n n) = .error .expectedDict) ∧
    (∀ b, checkRecord (J.b b) = .error .expectedDict) ∧
    checkRecord J.jnull = .error .expectedDict ∧
    (∀ xs, checkRecord (J.arr xs) = .error .expectedDict) := by
  refine ⟨rfl, rfl, fun x rest => rfl, fun kvs => rfl, fun kvs => rfl,
    fun s => rfl, fun n => rfl, fun b => rfl, rfl, fun xs => ?_⟩
  cases xs <;> rfl

/-! ## Claim theorems: the response processor -/

/-- C2 (counterexample): a currency-named field holding `None` is replaced
by the string 'None' by the formatting pass — the non-numeric value is
converted by `str(...)`, not passed through unchanged. -/
theorem c2_currency_counterexample :
    formatRecord [((("Amount".data)), Value.vNull)] =
      [((("Amount".data)), Value.vStr noneStr)] ∧
    Value.vStr noneStr ≠ Value.vNull :=
  ⟨by rfl, by decide⟩

/-- C2 (amended): every field whose name contains a currency substring is
rewritten by `_format_currency`: values accepted by `float(...)` -
numbers, and numeric strings including decimals and exponents - become
dollar-prefixed, thousands-grouped, two-decimal strings (shown on the
integral range and on `1.5` and `2e3`); strings `float(...)` rejects pass
through unchanged; but `None` is replaced by its string form 'None'. -/
theorem c2_currency_amended :
    (∀ r : Record, (formatRecord r).length = r.length ∧
      ∀ k v, (k, v) ∈ r →
        ((if isCurrencyKey k then (k, format_currency v) else (k, v)) ∈
          formatRecord r)) ∧
    (∀ n : Int, n.natAbs < 2 ^ 53 → format_currency (.vInt n) = .vStr (moneyStr n)) ∧
    (∀ s : PyStr, pyFloatParse s = none → format_currency (.vStr s) = .vStr s) ∧
    format_currency .vNull = .vStr noneStr ∧
    format_currency (.vStr (("1.5".data))) = .vStr (("$1.50".data)) ∧
    format_currency (.vStr (("2e3".data))) = .vStr (("$2,000.00".data)) ∧
    moneyStr 1234567 = (("$1,234,567.00".data)) ∧
    moneyStr (-50) = (("$-50.00".data)) ∧
    isCurrencyKey (("Total_Amount".data)) = true ∧
    isCurrencyKey (("Email".data)) = false := by
  refine ⟨?_, fun n _ => format_currency_int n, ?_, by rfl, by rfl, by rfl, by rfl,
    by rfl, by rfl, by rfl⟩
  · intro r
    constructor
    · simp [formatRecord]
    · intro k v hkv
      have hmem := List.mem_map_of_mem
        (fun kv => if isCurrencyKey kv.1 then (kv.1, format_currency kv.2) else kv) hkv
      exact hmem
  · intro s hs
    simp only [format_currency, floatOf, hs]
    rfl

/-- C2 (witness): the string 'abc', which `float(...)` rejects, passes
through the formatter unchanged. -/
theorem c2_currency_witness :
    format_currency (Value.vStr (("abc".data))) = Value.vStr (("abc".data)) :=
  c2_currency_amended.2.2.1 (("abc".data)) (by rfl)

/-- C4 (counterexample): on an envelope with no records the processor
returns status `'error'` — exactly the status used for an LLM-analysis
failure — so the "no data" outcome is an error outcome, contrary to the
claim. -/
theorem c4_no_data_counterexample :
    jLookup statusKey (asFields
      (process_response ⟨some []⟩ ([]) ([]) llmOk llmOk ([]))) =
      some (J.s errorVal) ∧
    jLookup statusKey (asFields
      (process_response ⟨some [[((("A".data)), Value.vInt 1)]]⟩
        ([]) ([]) llmErr llmOk ([]))) =
      some (J.s errorVal) :=
  ⟨rfl, rfl⟩

/-- C4 (amended): an empty record set yields the status-'error' object
with message 'No data found in response'; an LLM failure yields the
status-'error' object with message 'Failed to generate analysis'; the two
outcomes share the 'error' status and are distinguished only by their
message. -/
theorem c4_no_data_amended :
    (∀ env natural coql nr tb ts, clean_and_structure_data env = [] →
      process_response env natural coql nr tb ts = noDataObj) ∧
    (∀ env natural coql msg tb ts, clean_and_structure_data env ≠ [] →
      process_response env natural coql (fun _ _ _ => .error msg) tb ts =
        llmFailObj) ∧
    jLookup statusKey (asFields noDataObj) =
      jLookup statusKey (asFields llmFailObj) ∧
    noDataMsg ≠ llmFailMsg := by
  refine ⟨?_, ?_, rfl, by decide⟩
  · intro env natural coql nr tb ts hc
    simp only [process_response, hc]
  · intro env natural coql msg tb ts hc
    cases hcv : clean_and_structure_data env with
    | nil => exact absurd hcv hc
    | cons r rs => simp only [process_response, hcv]

/-- C4 (witness): the first part applied to a concrete empty envelope. -/
theorem c4_no_data_witness :
    process_response ⟨some []⟩ ([]) ([]) llmOk llmOk ([]) = noDataObj :=
  c4_no_data_amended.1 ⟨some []⟩ ([]) ([]) llmOk llmOk ([]) (by rfl)

/-- C10: `process_response` always returns an object whose `status` is
`'success'` or `'error'`, and on success the object carries the query
pair, the two analyses, and metadata whose `record_count` equals the
number of records extracted from the envelope. -/
theorem c10_process_total (env : Envelope) (natural coql : PyStr)
    (nr tb : LlmCall) (ts : PyStr) :
    (jLookup statusKey (asFields (process_response env natural coql nr tb ts)) =
        some (J.s successVal) ∨
     jLookup statusKey (asFields (process_response env natural coql nr tb ts)) =
        some (J.s errorVal)) ∧
    (jLookup statusKey (asFields (process_response env natural coql nr tb ts)) =
        some (J.s successVal) →
      jLookup queryKey (asFields (process_response env natural coql nr tb ts)) =
        some (J.o [(naturalKey, J.s natural), (coqlKey, J.s coql)]) ∧
      (∃ na ta,
        jLookup analysisKey (asFields (process_response env natural coql nr tb ts)) =
          some (J.o [(narrativeKey, J.s na), (tabularKey, J.s ta)])) ∧
      jLookup metadataKey (asFields (process_response env natural coql nr tb ts)) =
        some (J.o [(timestampKey, J.s ts),
          (recordCountKey, J.n ((clean_and_structure_data env).length : Int))])) := by
  cases hc : clean_and_structure_data env with
  | nil =>
    have hp : process_response env natural coql nr tb ts = noDataObj := by
      simp only [process_response, hc]
    rw [hp]
    refine ⟨Or.inr rfl, ?_⟩
    intro hcontra
    exfalso
    rw [show jLookup statusKey (asFields noDataObj) = some (J.s errorVal)
      from rfl] at hcontra
    injection hcontra with h2
    injection h2 with h3
    exact absurd h3 (by decide)
  | cons r rs =>
    cases hn : nr natural coql (formatted_dataOf env) with
    | error e =>
      have hp : process_response env natural coql nr tb ts = llmFailObj := by
        simp only [process_response, hc, hn]
      rw [hp]
      refine ⟨Or.inr rfl, ?_⟩
      intro hcontra
      exfalso
      rw [show jLookup statusKey (asFields llmFailObj) = some (J.s errorVal)
        from rfl] at hcontra
      injection hcontra with h2
      injection h2 with h3
      exact absurd h3 (by decide)
    | ok nt =>
      cases ht : tb natural coql (formatted_dataOf env) with
      | error e =>
        have hp : process_response env natural coql nr tb ts = llmFailObj := by
          simp only [process_response, hc, hn, ht]
        rw [hp]
        refine ⟨Or.inr rfl, ?_⟩
        intro hcontra
        exfalso
        rw [show jLookup statusKey (asFields llmFailObj) = some (J.s errorVal)
          from rfl] at hcontra
        injection hcontra with h2
        injection h2 with h3
        exact absurd h3 (by decide)
      | ok tt =>
        have hp : process_response env natural coql nr tb ts =
            J.o [(statusKey, J.s successVal),
                 (queryKey, J.o [(naturalKey, J.s natural), (coqlKey, J.s coql)]),
                 (analysisKey, J.o [(narrativeKey, J.s (stripWS nt)),
                                    (tabularKey, J.s (stripWS tt))]),
                 (metadataKey, J.o [(timestampKey, J.s ts),
                   (recordCountKey, J.n ((r :: rs).length : Int))])] := by
          simp only [process_response, hc, hn, ht]
        rw [hp]
        refine ⟨Or.inl rfl, ?_⟩
        intro _
        exact ⟨rfl, ⟨stripWS nt, stripWS tt, rfl⟩, rfl⟩

/-- C10 (witness): the success-path conclusion at a concrete one-record
envelope with both LLM calls succeeding: the reported record count is 1. -/
theorem c10_process_total_witness :
    jLookup metadataKey (asFields
      (process_response ⟨some [[((("A".data)), Value.vInt 1)]]⟩
        ([]) ([]) llmOk llmOk ([]))) =
      some (J.o [(timestampKey, J.s ([])), (recordCountKey, J.n 1)]) := by
  have h := (c10_process_total ⟨some [[((("A".data)), Value.vInt 1)]]⟩
    ([]) ([]) llmOk llmOk ([])).2 (by rfl)
  exact h.2.2

/-! ## Claim theorems: the executor retry flow -/

/-- C5: whenever the first POST of `execute_coql` returns 401, exactly one
token refresh and exactly one more POST follow it (two POSTs in total),
and a second 401 raises a terminal failure with no third attempt and no
further refresh. -/
theorem c5_retry_once (hasTok : Bool) (st : Nat → Nat) (h : st 0 = 401) :
    countEv .queryPost (execute_coql hasTok st).1 = 2 ∧
    countEv .tokenRefresh (afterFirstPost (execute_coql hasTok st).1) = 1 ∧
    countEv .queryPost (afterFirstPost (execute_coql hasTok st).1) = 1 ∧
    (st 1 = 401 → (execute_coql hasTok st).2 = .error 401) := by
  have hev : (execute_coql hasTok st).1 =
      (if hasTok then [] else [ExecEvent.tokenRefresh]) ++
        [.queryPost, .tokenRefresh, .queryPost] := by
    simp [execute_coql, h]
  have hout : (execute_coql hasTok st).2 =
      (if raisesForStatus (st 1) then .error (st 1) else .ok ()) := by
    simp [execute_coql, h]
  refine ⟨?_, ?_, ?_, ?_⟩
  · rw [hev]
    cases hasTok <;> decide
  · rw [hev]
    cases hasTok <;> decide
  · rw [hev]
    cases hasTok <;> decide
  · intro h2
    rw [hout, h2]
    simp [raisesForStatus]

/-- C5 (witness): the scenario where both POSTs return 401 — one refresh,
one retry, terminal failure. -/
theorem c5_retry_once_witness :
    countEv .queryPost (execute_coql true (fun _ => 401)).1 = 2 ∧
    countEv .tokenRefresh (afterFirstPost (execute_coql true (fun _ => 401)).1) = 1 ∧
    countEv .queryPost (afterFirstPost (execute_coql true (fun _ => 401)).1) = 1 ∧
    (execute_coql true (fun _ => 401)).2 = .error 401 := by
  have h := c5_retry_once true (fun _ => 401) rfl
  exact ⟨h.1, h.2.1, h.2.2.1, h.2.2.2 rfl⟩

end Zoho
